import Mathlib

/-!
Shallow embedding of the real-time collaboration layer of the
Real-Time-Collaborative-Document-Editor repository.

The embedding covers:
* `server/utils/redis.js` — presence, cursor, cache helpers backed by a
  TTL key/value store (modelled with explicit expiry timestamps; a key is
  alive at time `t` iff `t < expiry`; all times are in milliseconds, the
  unit of `Date.now()`, so `expire k 300` becomes `expiry := t + 300000`).
* the Socket.IO handler variants: the TypeScript `setupSocketHandlers`
  module (src/unnamed/part_001), the Redis-backed server
  (src/unnamed/part_005) and the standalone simplified server
  (src/unnamed/part_007).
* the HTTP PUT /api/documents/:id routes of part_005 and of
  `server/routes/documents.ts`.

JavaScript `Map`s keyed by strings are modelled as association lists with
`Map.set` / `Map.get` / `Map.delete` semantics; JavaScript `Set`s of user
ids as `Finset String`; JSON objects as association lists of string keys
to a JSON value type, where the spread-with-override idiom
`\x7b...obj, k: v\x7d` is `mapSet obj k v` (replace in place if present,
append otherwise, matching JS property-order semantics).
-/

/-- Association list keyed by strings: the model of a JS `Map` and of a
JSON object's field list. -/
abbrev SMap (α : Type) := List (String × α)

/-- Model of `Map.get` / property lookup: first binding of the key, if any. -/
def mapGet {α : Type} : SMap α → String → Option α
  | [], _ => none
  | (k0, v) :: rest, k => if k0 = k then some v else mapGet rest k

/-- Model of `Map.set` and of spread-with-override: replace the first binding of the key
in place, or append a new binding. -/
def mapSet {α : Type} : SMap α → String → α → SMap α
  | [], k, v => [(k, v)]
  | (k0, w) :: rest, k, v =>
      if k0 = k then (k, v) :: rest else (k0, w) :: mapSet rest k v

/-- Model of `Map.delete`: remove every binding of the key. -/
def mapDel {α : Type} : SMap α → String → SMap α
  | [], _ => []
  | (k0, w) :: rest, k =>
      if k0 = k then mapDel rest k else (k0, w) :: mapDel rest k

/-- JSON value: the fields that occur in this layer's payloads are strings
and numbers (`Date.now()` timestamps, positions). -/
inductive JVal : Type
  | str (v : String)
  | num (v : Int)
deriving DecidableEq, Repr

/-- JSON object as an ordered field list. -/
abbrev Jobj := SMap JVal

namespace Cache

/-!
Document cache (`cacheDocument` / `getCachedDocument` /
`invalidateDocumentCache` in server/utils/redis.js).  The store maps a
documentId (key `doc:{id}:cache`) to the stored JSON object together with
the absolute expiry time set by `setEx(key, 300, ...)`.
-/

/-- Cache store: documentId to (stored object, expiry time in ms). -/
abbrev CacheState := SMap (Jobj × Int)

/-- Embedding of `cacheDocument(documentId, documentData)` at time `now`: stores
`JSON.stringify(\x7b...documentData, cachedAt: Date.now()\x7d)` with a
300 second TTL. -/
def cacheDocument (st : CacheState) (id : String) (documentData : Jobj)
    (now : Int) : CacheState :=
  mapSet st id (mapSet documentData "cachedAt" (.num now), now + 300000)

/-- Embedding of `getCachedDocument(documentId)` at time `now`: returns the parsed
stored object if the key has not expired, else `null`. -/
def getCachedDocument (st : CacheState) (id : String) (now : Int) :
    Option Jobj :=
  match mapGet st id with
  | some (obj, exp) => if now < exp then some obj else none
  | none => none

/-- Embedding of `invalidateDocumentCache(documentId)`: `del` on the cache key. -/
def invalidateDocumentCache (st : CacheState) (id : String) : CacheState :=
  mapDel st id

end Cache

namespace Cursors

/-!
Cursor store (`updateUserCursor` / `getDocumentCursors` in
server/utils/redis.js).  The hash `doc:{id}:cursors` maps userId to a
JSON string; `getDocumentCursors` parses each entry and filters out
entries older than 60000 ms at read time.
-/

/-- A stored hash value: either JSON that parses to an object, or an
unparseable blob (`JSON.parse` throws and the entry is skipped). -/
inductive Blob : Type
  | ok (o : Jobj)
  | bad
deriving DecidableEq, Repr

/-- The numeric `timestamp` field of a parsed cursor object, when present
(`now - cursor.timestamp < maxAge` is false in JS when the field is
missing or non-numeric, so such entries are excluded either way). -/
def tsOf (o : Jobj) : Option Int :=
  match mapGet o "timestamp" with
  | some (.num v) => some v
  | _ => none

/-- Embedding of `getDocumentCursors(documentId)` at time `now` over the raw hash
entries: parse each entry and keep it iff `now - cursor.timestamp <
60000`. -/
def getDocumentCursors (cursors : SMap Blob) (now : Int) : SMap Jobj :=
  cursors.filterMap (fun p =>
    match p.2 with
    | .ok o =>
        match tsOf o with
        | some ts => if now - ts < 60000 then some (p.1, o) else none
        | none => none
    | .bad => none)

/-- The hash `doc:{id}:cursors`: parsed entries plus the expiry set by
`expire(cursorKey, 60)`. -/
structure CursorKey : Type where
  entries : SMap Jobj
  expiry : Int
deriving DecidableEq, Repr

/-- Embedding of `updateUserCursor(documentId, userId, cursorData)` at time `now`:
`hSet(cursorKey, userId, JSON.stringify(\x7b...cursorData, timestamp:
Date.now()\x7d))` then `expire(cursorKey, 60)`. -/
def updateUserCursor (ck : CursorKey) (userId : String) (cursorData : Jobj)
    (now : Int) : CursorKey :=
  { entries := mapSet ck.entries userId
      (mapSet cursorData "timestamp" (.num now)),
    expiry := now + 60000 }

end Cursors

namespace Presence

/-!
Presence store (`addUserToDocument` / `removeUserFromDocument` /
`getDocumentActiveUsers` in server/utils/redis.js).  The set key
`doc:{documentId}:presence` holds the member userIds with a single
key-level expiry (refreshed by any `expire(presenceKey, 300)`), and the
hash `user:{userId}:info` holds id/username/lastSeen with its own expiry.
A key is alive at time `t` iff `t < expiry`; a write that hits an expired
key sees it as absent (lazy expiry).
-/

/-- The hash `user:{userId}:info` as written by `hSet`. -/
structure UserInfo : Type where
  id : String
  username : String
  lastSeen : Int
deriving DecidableEq, Repr

/-- Member list of a presence set: `sAdd` semantics (no duplicates). -/
def setAddStr (l : List String) (u : String) : List String :=
  if u ∈ l then l else l ++ [u]

/-- Model of `sRem`. -/
def setDelStr (l : List String) (u : String) : List String :=
  l.filter (fun x => decide (x ≠ u))

/-- Store state: presence sets (members, expiry) per documentId and info
hashes (record, expiry) per userId. -/
structure St : Type where
  presence : SMap (List String × Int)
  infos : SMap (UserInfo × Int)
deriving DecidableEq, Repr

/-- Timestamped presence operations (the store calls made by the
handlers). -/
inductive POp : Type
  | add (d u name : String) (t : Int)
  | remove (d u : String) (t : Int)
deriving DecidableEq, Repr

/-- The members a write at time `t` sees in the presence set: the stored
list when the key is alive, the empty set when it is expired or absent
(lazy expiry: `sAdd` on a dead key starts a fresh set). -/
def aliveMembers (st : St) (d : String) (t : Int) : List String :=
  match mapGet st.presence d with
  | some (m, exp) => if t < exp then m else []
  | none => []

/-- Embedding of `addUserToDocument(documentId, userId, username)` at time `t`:
`sAdd(presenceKey, userId)`, `expire(presenceKey, 300)`,
`hSet(userKey, \x7bid, username, lastSeen: Date.now()\x7d)`,
`expire(userKey, 300)`.  `removeUserFromDocument(documentId, userId)`:
`sRem(presenceKey, userId)` (no TTL change). -/
def step (st : St) : POp → St
  | .add d u name t =>
      { presence :=
          mapSet st.presence d (setAddStr (aliveMembers st d t) u, t + 300000),
        infos := mapSet st.infos u
          ({ id := u, username := name, lastSeen := t }, t + 300000) }
  | .remove d u t =>
      match mapGet st.presence d with
      | some (m, exp) =>
          if t < exp then
            { st with presence := mapSet st.presence d (setDelStr m u, exp) }
          else st
      | none => st

/-- Run a trace of presence operations from the empty store. -/
def runP (ops : List POp) : St :=
  ops.foldl step ⟨[], []⟩

/-- Embedding of `getDocumentActiveUsers(documentId)` at time `t`: `sMembers` of the
presence set (empty if the key is dead), then for each member userId,
`hGetAll(user:{userId}:info)` and keep the user iff the info hash is
alive and its `id` field is truthy (non-empty). -/
def getDocumentActiveUsers (st : St) (d : String) (t : Int) :
    List UserInfo :=
  match mapGet st.presence d with
  | some (mem, exp) =>
      if t < exp then
        mem.filterMap (fun u =>
          match mapGet st.infos u with
          | some (info, iexp) =>
              if t < iexp ∧ info.id ≠ "" then some info else none
          | none => none)
      else []
  | none => []

/-- Well-formedness of the info hashes: the stored `id` field equals the
hash key (`addUserToDocument` always stores `id: userId`). -/
def infoWF (st : St) : Prop :=
  ∀ u info iexp, mapGet st.infos u = some (info, iexp) → info.id = u

/-- Upper bound on the expiry of one user's info hash. -/
def infoExpLe (st : St) (u : String) (b : Int) : Prop :=
  ∀ info iexp, mapGet st.infos u = some (info, iexp) → iexp ≤ b

end Presence

namespace Rooms

/-!
Connection and room-registry model shared by the Socket.IO server
variants.  A `Conn` is one socket: its id, the identity set by
`user:join` (`socket.userId` / `socket.username`) and the list of
document rooms it is in (the `doc:`-prefixed entries of `socket.rooms`,
stored here as bare documentIds; `socket.join` is set-like, so a room is
added only if absent).  The in-process registry `documentRooms` is a
`Map<string, Set<string>>`, modelled as `SMap (Finset String)`.
-/

/-- One socket connection. -/
structure Conn : Type where
  cid : Nat
  uid : Option String
  uname : Option String
  rooms : List String
deriving DecidableEq, Repr

/-- The `documentRooms` map: documentId to the set of userIds. -/
abbrev Registry := SMap (Finset String)

/-- Server state for the registry-keeping variants. -/
structure St : Type where
  conns : List Conn
  rooms : Registry
deriving DecidableEq

/-- Find the socket with a given id. -/
def findConn : List Conn → Nat → Option Conn
  | [], _ => none
  | c :: rest, cid => if c.cid = cid then some c else findConn rest cid

/-- Update the socket with a given id in place. -/
def updConn (cs : List Conn) (cid : Nat) (g : Conn → Conn) : List Conn :=
  cs.map (fun c => if c.cid = cid then g c else c)

/-- Drop the socket with a given id. -/
def dropConn : List Conn → Nat → List Conn
  | [], _ => []
  | c :: rest, cid =>
      if c.cid = cid then dropConn rest cid else c :: dropConn rest cid

/-- Model of `socket.join(room)`: rooms are a set, joining twice is a no-op. -/
def joinList (l : List String) (d : String) : List String :=
  if d ∈ l then l else l ++ [d]

/-- The part_001 cleanup done for one previous room `r` of user `u`:
`if (documentRooms.has(oldDocId)) \x7b delete the user; if the set
became empty, delete the room \x7d`. -/
def leaveRoom (reg : Registry) (r u : String) : Registry :=
  match mapGet reg r with
  | none => reg
  | some mem =>
      let mem' := mem.erase u
      if mem' = ∅ then mapDel reg r else mapSet reg r mem'

/-- Embedding of `if (!documentRooms.has(documentId)) documentRooms.set(documentId,
new Set()); documentRooms.get(documentId)?.add(socket.userId)`. -/
def addMember (reg : Registry) (d u : String) : Registry :=
  let reg' := if (mapGet reg d).isSome then reg else mapSet reg d ∅
  match mapGet reg' d with
  | some mem => mapSet reg' d (insert u mem)
  | none => reg'

/-- Events driven by clients, labelled with the socket id. -/
inductive Op : Type
  | connect (cid : Nat)
  | userJoin (cid : Nat) (uid uname : String)
  | docJoin (cid : Nat) (d : String)
  | disconnect (cid : Nat)
deriving DecidableEq, Repr

/-- The empty server. -/
def init : St := ⟨[], []⟩

namespace SrvTs

/-!
The `setupSocketHandlers` variant (src/unnamed/part_001): `document:join`
leaves every previous doc room (removing the user from `documentRooms`
and deleting rooms that became empty) before joining the new one.  The
`disconnect` handler contains the same per-room cleanup loop, but it
iterates `Array.from(socket.rooms)` inside a `disconnect` listener, and
Socket.IO (v3/v4, as constructed here with `new Server(httpServer, ...)`)
removes the socket from all of its rooms before emitting `disconnect` —
only the `disconnecting` event still sees them.  The loop body therefore
never runs: the observable effect of the handler is that the socket
disappears and the external users table is updated, while
`documentRooms` is left untouched.
-/

/-- One handler invocation of the part_001 variant. -/
def step (s : St) : Op → St
  | .connect cid => { s with conns := s.conns ++ [⟨cid, none, none, []⟩] }
  | .userJoin cid u name =>
      { s with
        conns :=
          updConn s.conns cid
            (fun c => { c with uid := some u, uname := some name }) }
  | .docJoin cid d =>
      match findConn s.conns cid with
      | none => s
      | some c =>
          match c.uid, c.uname with
          | some u, some _ =>
              let reg1 := c.rooms.foldl (fun reg r => leaveRoom reg r u) s.rooms
              { conns := updConn s.conns cid (fun c0 => { c0 with rooms := [d] }),
                rooms := addMember reg1 d u }
          | _, _ => s
  | .disconnect cid =>
      match findConn s.conns cid with
      | none => s
      | some _ => { s with conns := dropConn s.conns cid }

/-- Run a trace of events from the empty server. -/
def run (ops : List Op) : St := ops.foldl step init

end SrvTs

namespace SrvSimple

/-!
The standalone server variant (src/unnamed/part_007): `document:join`
joins the new room and adds the user to `documentRooms` without leaving
any previous room, and `disconnect` only flags the user inactive in the
database — it never touches `documentRooms`.
-/

/-- One handler invocation of the part_007 variant. -/
def step (s : St) : Op → St
  | .connect cid => { s with conns := s.conns ++ [⟨cid, none, none, []⟩] }
  | .userJoin cid u name =>
      { s with
        conns :=
          updConn s.conns cid
            (fun c => { c with uid := some u, uname := some name }) }
  | .docJoin cid d =>
      match findConn s.conns cid with
      | none => s
      | some c =>
          match c.uid, c.uname with
          | some u, some _ =>
              { conns :=
                  updConn s.conns cid
                    (fun c0 => { c0 with rooms := joinList c0.rooms d }),
                rooms := addMember s.rooms d u }
          | _, _ => s
  | .disconnect cid =>
      match findConn s.conns cid with
      | none => s
      | some _ => { s with conns := dropConn s.conns cid }

/-- Run a trace of events from the empty server. -/
def run (ops : List Op) : St := ops.foldl step init

end SrvSimple

/-- True iff connection `c` is bound to room `d` as user `u`. -/
def boundBy (c : Conn) (d u : String) : Prop :=
  c.uid = some u ∧ d ∈ c.rooms

/-- True iff some live connection is bound to room `d` as user `u`. -/
def bound (s : St) (d u : String) : Prop :=
  ∃ c, c ∈ s.conns ∧ boundBy c d u

/-- True iff the registry lists `u` as a member of room `d`. -/
def memQ (s : St) (d u : String) : Prop :=
  ∃ mem, mapGet s.rooms d = some mem ∧ u ∈ mem

instance (c : Conn) (d u : String) : Decidable (boundBy c d u) := by
  unfold boundBy; infer_instance

instance (s : St) (d u : String) : Decidable (bound s d u) := by
  unfold bound
  have : ∀ c : Conn, Decidable (c ∈ s.conns ∧ boundBy c d u) := by
    intro c; infer_instance
  exact List.decidableBEx _ s.conns

instance (s : St) (d u : String) : Decidable (memQ s d u) := by
  unfold memQ
  cases mapGet s.rooms d with
  | none => exact isFalse (by simp)
  | some mem => exact decidable_of_iff (u ∈ mem) (by simp)

end Rooms

namespace SrvFull

/-!
The Redis-backed server (src/unnamed/part_005).  Its handlers keep no
in-process registry; room membership lives in `socket.rooms` and the
Redis presence store.  Each handler is embedded as a function from the
server state to the new state paired with the ordered list of effects it
performs (store writes, emits, publishes), in source order.  Pure reads
(`getDocumentActiveUsers`, `getDocumentCursors`) are not listed as
effects.
-/

open Rooms (Conn findConn updConn dropConn joinList)

/-- A chat record as returned by the insert into `chat_messages` with its
generated id and timestamp. -/
structure ChatRecord : Type where
  id : Nat
  document_id : String
  user_id : String
  message : String
  created_at : Int
  username : String
deriving DecidableEq, Repr

/-- Server state: just the connected sockets. -/
structure St : Type where
  conns : List Conn
deriving DecidableEq, Repr

/-- One effect of a part_005 handler, in source order.  Emits carry their
audience: `emitError` and `emitPresenceSnapshot` go to one socket,
`emitUserLeft` / `emitUserJoined` / `emitChanged` / `emitCursorUpdated`
go to the other members of a room (`socket.to(room).emit`), and
`emitNewMessage` goes to every listed socket (`io.to(room).emit`). -/
inductive Act : Type
  | leaveSocketRoom (d : String)
  | removePresence (d u : String)
  | removeCursor (d u : String)
  | emitUserLeft (d u : String)
  | joinSocketRoom (d : String)
  | addPresence (d u : String)
  | emitUserJoined (d u : String)
  | emitPresenceSnapshot (toCid : Nat)
  | emitError (toCid : Nat) (msg : String)
  | emitChanged (d content : String)
  | publishChange (d : String)
  | invalidateCache (d : String)
  | updateCursorStore (d u : String)
  | emitCursorUpdated (d u : String)
  | publishCursor (d : String)
  | persistChat (d u msg : String)
  | emitNewMessage (recipients : List Nat) (rec : ChatRecord)
  | setUserInactive (u : String)
deriving DecidableEq, Repr

/-- The sockets currently in room `doc:{d}`: the audience of
`io.to(roomName)`. -/
def roomMembers (s : St) (d : String) : List Nat :=
  (s.conns.filter (fun c => decide (d ∈ c.rooms))).map (fun c => c.cid)

/-- The `user:join` handler: sets `socket.userId` / `socket.username`
(the database update is an external effect on the users table, not
modelled). -/
def userJoin (s : St) (cid : Nat) (u name : String) : St :=
  { conns :=
      updConn s.conns cid
        (fun c => { c with uid := some u, uname := some name }) }

/-- The `document:join` handler: reject when unidentified; otherwise for
each previous doc room, in order, leave it, remove presence, remove the
cursor and notify its members, and only then join the new room, add
presence, notify the new room and send the presence snapshot to the
joining socket. -/
def docJoin (s : St) (cid : Nat) (d : String) : St × List Act :=
  match findConn s.conns cid with
  | none => (s, [])
  | some c =>
      match c.uid, c.uname with
      | some u, some _ =>
          let leaveActs :=
            c.rooms.flatMap (fun r =>
              [Act.leaveSocketRoom r, Act.removePresence r u,
               Act.removeCursor r u, Act.emitUserLeft r u])
          let joinActs :=
            [Act.joinSocketRoom d, Act.addPresence d u,
             Act.emitUserJoined d u, Act.emitPresenceSnapshot cid]
          ({ conns := updConn s.conns cid (fun c0 => { c0 with rooms := [d] }) },
           leaveActs ++ joinActs)
      | _, _ => (s, [Act.emitError cid "User not authenticated"])

/-- The `document:change` handler: `if (!socket.userId) return;` then
broadcast to the others in the room, publish for other nodes and
invalidate the document cache. -/
def change (s : St) (cid : Nat) (d content : String) : St × List Act :=
  match findConn s.conns cid with
  | none => (s, [])
  | some c =>
      match c.uid with
      | some _ =>
          (s, [Act.emitChanged d content, Act.publishChange d,
               Act.invalidateCache d])
      | none => (s, [])

/-- The `cursor:update` handler: `if (!socket.userId ||
!socket.username) return;` then write the cursor to Redis, broadcast to
the others and publish for other nodes. -/
def cursor (s : St) (cid : Nat) (d : String) : St × List Act :=
  match findConn s.conns cid with
  | none => (s, [])
  | some c =>
      match c.uid, c.uname with
      | some u, some _ =>
          (s, [Act.updateCursorStore d u, Act.emitCursorUpdated d u,
               Act.publishCursor d])
      | _, _ => (s, [])

/-- The `chat:message` handler: `if (!socket.userId ||
!socket.username) return;` then insert the message into `chat_messages`;
on success broadcast the persisted record to every socket in the room
(`io.to(roomName)`, sender included); on failure emit an error to the
sender only.  The outcome of the external insert is the `persisted`
argument. -/
def chat (s : St) (cid : Nat) (d msg : String)
    (persisted : Except Unit ChatRecord) : St × List Act :=
  match findConn s.conns cid with
  | none => (s, [])
  | some c =>
      match c.uid, c.uname with
      | some u, some _ =>
          (s, Act.persistChat d u msg ::
            (match persisted with
             | .ok rec => [Act.emitNewMessage (roomMembers s d) rec]
             | .error _ => [Act.emitError cid "Failed to send message"]))
      | _, _ => (s, [])

/-- The `disconnect` handler: its body loops over the `doc:` entries of
`Array.from(socket.rooms)` to remove presence and cursors and notify the
rooms, but Socket.IO empties `socket.rooms` before the `disconnect`
event fires, so the loop body never runs; when identified, the only
performed effect is flagging the user inactive in the users table, and
the transport drops the socket. -/
def disconnect (s : St) (cid : Nat) : St × List Act :=
  match findConn s.conns cid with
  | none => (s, [])
  | some c =>
      match c.uid with
      | some u =>
          ({ conns := dropConn s.conns cid }, [Act.setUserInactive u])
      | none => ({ conns := dropConn s.conns cid }, [])

instance : DecidableEq (Except Unit ChatRecord) := fun
  | .ok a, .ok b =>
      if h : a = b then isTrue (by rw [h]) else isFalse (by simp [h])
  | .ok _, .error _ => isFalse (by simp)
  | .error _, .ok _ => isFalse (by simp)
  | .error a, .error b => isTrue (by cases a; cases b; rfl)

/-- Client events of the part_005 server; the chat event carries the
outcome of its external persistence call. -/
inductive Op : Type
  | connect (cid : Nat)
  | userJoin (cid : Nat) (uid uname : String)
  | docJoin (cid : Nat) (d : String)
  | change (cid : Nat) (d content : String)
  | cursor (cid : Nat) (d : String)
  | chat (cid : Nat) (d msg : String) (persisted : Except Unit ChatRecord)
  | disconnect (cid : Nat)
deriving DecidableEq, Repr

/-- One handler invocation (state part). -/
def step (s : St) : Op → St
  | .connect cid => { conns := s.conns ++ [⟨cid, none, none, []⟩] }
  | .userJoin cid u name => userJoin s cid u name
  | .docJoin cid d => (docJoin s cid d).1
  | .change cid d content => (change s cid d content).1
  | .cursor cid d => (cursor s cid d).1
  | .chat cid d msg p => (chat s cid d msg p).1
  | .disconnect cid => (disconnect s cid).1

/-- Run a trace of events from the empty server. -/
def run (ops : List Op) : St := ops.foldl step ⟨[]⟩

end SrvFull

namespace Routes

/-!
The HTTP PUT /api/documents/:id routes: the Redis-backed server's route
(src/unnamed/part_005, which invalidates the document cache after a
successful update) and `router.put('/:id')` of server/routes/documents.ts
(which does not).  Each route body is embedded as the ordered list of its
effects; the outcome of the external database update is a parameter.
-/

/-- One effect of a route body, in source order. -/
inductive RAct : Type
  | respond400
  | dbUpdateContent (id content : String)
  | invalidateCache (id : String)
  | respondOk
  | respond500
deriving DecidableEq, Repr

/-- JS truthiness of an optional request-body string: absent and empty
strings are falsy. -/
def truthy : Option String → Bool
  | some s => !(s == "")
  | none => false

/-- PUT /api/documents/:id of the part_005 server: validate, update the
row, invalidate the document cache, then respond. -/
def putIndex (id : String) (content userId : Option String)
    (db : Except Unit Unit) : List RAct :=
  if truthy content && truthy userId then
    match content with
    | some c =>
        RAct.dbUpdateContent id c ::
          (match db with
           | .ok _ => [RAct.invalidateCache id, RAct.respondOk]
           | .error _ => [RAct.respond500])
    | none => [RAct.respond400]
  else [RAct.respond400]

/-- Embedding of `router.put('/:id')` of server/routes/documents.ts: validate, update
the row, then respond — no cache call anywhere in the body. -/
def putRouter (id : String) (content userId : Option String)
    (db : Except Unit Unit) : List RAct :=
  if truthy content && truthy userId then
    match content with
    | some c =>
        RAct.dbUpdateContent id c ::
          (match db with
           | .ok _ => [RAct.respondOk]
           | .error _ => [RAct.respond500])
    | none => [RAct.respond400]
  else [RAct.respond400]

end Routes

/-! ### Lemmas about the association-list primitives -/

theorem mapGet_mapSet_self {α : Type} (m : SMap α) (k : String) (v : α) :
    mapGet (mapSet m k v) k = some v := by
  induction m with
  | nil => simp [mapSet, mapGet]
  | cons p rest ih =>
      obtain ⟨k0, w⟩ := p
      by_cases h : k0 = k
      · simp [mapSet, h, mapGet]
      · simp [mapSet, h, mapGet, ih]

theorem mapGet_mapSet_ne {α : Type} (m : SMap α) (k k' : String) (v : α)
    (h : k' ≠ k) : mapGet (mapSet m k v) k' = mapGet m k' := by
  induction m with
  | nil => simp [mapSet, mapGet, Ne.symm h]
  | cons p rest ih =>
      obtain ⟨k0, w⟩ := p
      by_cases hk : k0 = k
      · subst hk; simp [mapSet, mapGet, Ne.symm h]
      · by_cases hk' : k0 = k'
        · simp [mapSet, hk, mapGet, hk', h]
        · simp [mapSet, hk, mapGet, hk', ih]

theorem mapGet_mapDel_self {α : Type} (m : SMap α) (k : String) :
    mapGet (mapDel m k) k = none := by
  induction m with
  | nil => simp [mapDel, mapGet]
  | cons p rest ih =>
      obtain ⟨k0, w⟩ := p
      by_cases h : k0 = k
      · simp [mapDel, h, ih]
      · simp [mapDel, h, mapGet, ih]

theorem mapGet_mapDel_ne {α : Type} (m : SMap α) (k k' : String)
    (h : k' ≠ k) : mapGet (mapDel m k) k' = mapGet m k' := by
  induction m with
  | nil => simp [mapDel]
  | cons p rest ih =>
      obtain ⟨k0, w⟩ := p
      by_cases hk : k0 = k
      · subst hk; simp [mapDel, mapGet, Ne.symm h, ih]
      · by_cases hk' : k0 = k'
        · simp [mapDel, hk, mapGet, hk', h]
        · simp [mapDel, hk, mapGet, hk', ih]

/-! ### Claim C6 — document cache -/

/-- Claim C6, counterexample to the claim as stated: the snapshot put
into the cache is `[("content","x")]`, but a get 1000 ms later returns it
with an extra `cachedAt` field, so the result is not value-equal to the
snapshot passed to the put. -/
theorem C6_cache_counterexample :
    Cache.getCachedDocument
        (Cache.cacheDocument [] "d" [("content", JVal.str "x")] 0) "d" 1000 =
      some [("content", JVal.str "x"), ("cachedAt", JVal.num 0)] ∧
    ([("content", JVal.str "x"), ("cachedAt", JVal.num 0)] : Jobj) ≠
      [("content", JVal.str "x")] := by
  constructor
  · rfl
  · decide

/-- Claim C6, amended: a get less than 300 s (300000 ms) after the most
recent put returns the snapshot passed to that put with one extra field,
`cachedAt`, set to the put time, all other fields unchanged; a get 300 s
or more after the put, or any get after an invalidate with no
intervening put, is a miss. -/
theorem C6_cache_amended :
    ∀ (st : Cache.CacheState) (id : String) (data : Jobj) (t tq : Int),
      (tq < t + 300000 →
        Cache.getCachedDocument (Cache.cacheDocument st id data t) id tq =
          some (mapSet data "cachedAt" (JVal.num t)) ∧
        mapGet (mapSet data "cachedAt" (JVal.num t)) "cachedAt" =
          some (JVal.num t) ∧
        (∀ k, k ≠ "cachedAt" →
          mapGet (mapSet data "cachedAt" (JVal.num t)) k = mapGet data k)) ∧
      (t + 300000 ≤ tq →
        Cache.getCachedDocument (Cache.cacheDocument st id data t) id tq =
          none) ∧
      Cache.getCachedDocument (Cache.invalidateDocumentCache st id) id tq =
        none := by
  intro st id data t tq
  refine ⟨fun hlt => ⟨?_, mapGet_mapSet_self _ _ _, fun k hk =>
    mapGet_mapSet_ne _ _ _ _ hk⟩, fun hge => ?_, ?_⟩
  · unfold Cache.getCachedDocument Cache.cacheDocument
    rw [mapGet_mapSet_self]
    simp [hlt]
  · unfold Cache.getCachedDocument Cache.cacheDocument
    rw [mapGet_mapSet_self]
    simp [not_lt.mpr hge]
  · unfold Cache.getCachedDocument Cache.invalidateDocumentCache
    rw [mapGet_mapDel_self]

/-- Claim C6, witness for the amended theorem at a concrete input: a put
of `[("content","x")]` at time 0 is a hit with the `cachedAt`-extended
snapshot at 1000 ms and a miss at 300000 ms. -/
theorem C6_cache_witness :
    ((1000 : Int) < 0 + 300000 ∧
      Cache.getCachedDocument
          (Cache.cacheDocument [] "d" [("content", JVal.str "x")] 0) "d" 1000 =
        some (mapSet [("content", JVal.str "x")] "cachedAt" (JVal.num 0))) ∧
    ((0 : Int) + 300000 ≤ 300000 ∧
      Cache.getCachedDocument
          (Cache.cacheDocument [] "d" [("content", JVal.str "x")] 0) "d"
          300000 = none) := by
  refine ⟨⟨by decide, ?_⟩, ⟨by decide, ?_⟩⟩
  · exact ((C6_cache_amended [] "d" [("content", JVal.str "x")] 0 1000).1
      (by decide)).1
  · exact (C6_cache_amended [] "d" [("content", JVal.str "x")] 0 300000).2.1
      (by decide)

/-! ### Claim C7 — cursor read-time staleness filter -/

/-- Claim C7: for every store contents and read time, the result of
`getDocumentCursors` contains no entry whose stored timestamp is 60 s
(60000 ms) or more older than the read time, even if the entry is still
physically present; and every physically present entry that parses and
whose timestamp is strictly less than 60 s old is included. -/
theorem C7_cursor_filter :
    ∀ (cursors : SMap Cursors.Blob) (now : Int),
      (∀ p, p ∈ Cursors.getDocumentCursors cursors now →
        ∃ ts, Cursors.tsOf p.2 = some ts ∧ now - ts < 60000) ∧
      (∀ (u : String) (o : Jobj) (ts : Int),
        (u, Cursors.Blob.ok o) ∈ cursors → Cursors.tsOf o = some ts →
        now - ts < 60000 →
        (u, o) ∈ Cursors.getDocumentCursors cursors now) := by
  intro cursors now
  constructor
  · intro p hp
    rw [Cursors.getDocumentCursors, List.mem_filterMap] at hp
    obtain ⟨⟨u0, b0⟩, _, hf⟩ := hp
    cases b0 with
    | bad => simp at hf
    | ok o =>
        dsimp only at hf
        rcases hts : Cursors.tsOf o with _ | ts
        · simp [hts] at hf
        · rw [hts] at hf
          by_cases hlt : now - ts < 60000
          · simp only [hlt, if_pos] at hf
            obtain rfl := Option.some_injective _ hf
            exact ⟨ts, hts, hlt⟩
          · simp [hlt] at hf
  · intro u o ts hmem hts hlt
    rw [Cursors.getDocumentCursors, List.mem_filterMap]
    exact ⟨(u, Cursors.Blob.ok o), hmem, by simp [hts, hlt]⟩

/-- Claim C7, witness at a concrete input: reading at 100000 ms, a fresh
entry (timestamp 70000) is included, and the result over a store holding
the fresh entry, a stale entry (timestamp 10000) and an unparseable
entry only contains fresh parsed entries. -/
theorem C7_cursor_filter_witness :
    ("u", ([("timestamp", JVal.num 70000)] : Jobj)) ∈
      Cursors.getDocumentCursors
        [("u", Cursors.Blob.ok [("timestamp", JVal.num 70000)]),
         ("v", Cursors.Blob.ok [("timestamp", JVal.num 10000)]),
         ("w", Cursors.Blob.bad)] 100000 ∧
    (∀ p, p ∈ Cursors.getDocumentCursors
        [("u", Cursors.Blob.ok [("timestamp", JVal.num 70000)]),
         ("v", Cursors.Blob.ok [("timestamp", JVal.num 10000)]),
         ("w", Cursors.Blob.bad)] 100000 →
      ∃ ts, Cursors.tsOf p.2 = some ts ∧ (100000 : Int) - ts < 60000) := by
  constructor
  · exact (C7_cursor_filter _ 100000).2 "u" _ 70000 (by decide) rfl (by decide)
  · exact (C7_cursor_filter _ 100000).1

/-! ### Claim C10 — cursor write stamps the store's own time -/

/-- Claim C10: `updateUserCursor` stores, under the user's hash field,
the caller's cursor object with its `timestamp` field overwritten by the
store call time; the persisted timestamp equals the call time whatever
timestamp the caller supplied, and all other fields are unchanged. -/
theorem C10_cursor_timestamp :
    ∀ (ck : Cursors.CursorKey) (u : String) (cursorData : Jobj) (now : Int),
      mapGet (Cursors.updateUserCursor ck u cursorData now).entries u =
        some (mapSet cursorData "timestamp" (JVal.num now)) ∧
      mapGet (mapSet cursorData "timestamp" (JVal.num now)) "timestamp" =
        some (JVal.num now) ∧
      (∀ k, k ≠ "timestamp" →
        mapGet (mapSet cursorData "timestamp" (JVal.num now)) k =
          mapGet cursorData k) := by
  intro ck u cursorData now
  exact ⟨mapGet_mapSet_self _ _ _, mapGet_mapSet_self _ _ _,
    fun k hk => mapGet_mapSet_ne _ _ _ _ hk⟩

/-- Claim C10, witness at a concrete input: a caller-supplied timestamp
of 5 is overwritten by the call time 99, and the position field is kept. -/
theorem C10_cursor_timestamp_witness :
    mapGet (Cursors.updateUserCursor ⟨[], 0⟩ "u"
        [("timestamp", JVal.num 5), ("position", JVal.num 3)] 99).entries
        "u" =
      some (mapSet [("timestamp", JVal.num 5), ("position", JVal.num 3)]
        "timestamp" (JVal.num 99)) ∧
    ("position" : String) ≠ "timestamp" ∧
    mapGet (mapSet [("timestamp", JVal.num 5), ("position", JVal.num 3)]
        "timestamp" (JVal.num 99)) "position" =
      mapGet [("timestamp", JVal.num 5), ("position", JVal.num 3)]
        "position" := by
  refine ⟨(C10_cursor_timestamp ⟨[], 0⟩ "u" _ 99).1, by decide, ?_⟩
  exact (C10_cursor_timestamp ⟨[], 0⟩ "u" _ 99).2.2 "position" (by decide)

/-! ### Lemmas about connections shared by the server variants -/

namespace Rooms

theorem findConn_eq_some_mem {cs : List Conn} {cid : Nat} {c : Conn}
    (h : findConn cs cid = some c) : c ∈ cs := by
  induction cs with
  | nil => simp [findConn] at h
  | cons c0 rest ih =>
      rw [findConn] at h
      by_cases h0 : c0.cid = cid
      · rw [if_pos h0] at h
        obtain rfl := Option.some_injective _ h
        exact List.mem_cons_self _ _
      · rw [if_neg h0] at h
        exact List.mem_cons_of_mem _ (ih h)

theorem findConn_eq_some_cid {cs : List Conn} {cid : Nat} {c : Conn}
    (h : findConn cs cid = some c) : c.cid = cid := by
  induction cs with
  | nil => simp [findConn] at h
  | cons c0 rest ih =>
      rw [findConn] at h
      by_cases h0 : c0.cid = cid
      · rw [if_pos h0] at h
        obtain rfl := Option.some_injective _ h
        exact h0
      · rw [if_neg h0] at h
        exact ih h

theorem findConn_eq_none {cs : List Conn} {cid : Nat} :
    findConn cs cid = none ↔ ∀ c ∈ cs, c.cid ≠ cid := by
  induction cs with
  | nil => simp [findConn]
  | cons c0 rest ih =>
      rw [findConn]
      by_cases h0 : c0.cid = cid
      · simp [h0]
      · simp [h0, ih]

theorem mem_updConn {cs : List Conn} {cid : Nat} {g : Conn → Conn}
    {x : Conn} :
    x ∈ updConn cs cid g ↔
      ∃ c0, c0 ∈ cs ∧ x = if c0.cid = cid then g c0 else c0 := by
  unfold updConn
  rw [List.mem_map]
  constructor
  · rintro ⟨c0, hc0, rfl⟩; exact ⟨c0, hc0, rfl⟩
  · rintro ⟨c0, hc0, rfl⟩; exact ⟨c0, hc0, rfl⟩

theorem mem_dropConn {cs : List Conn} {cid : Nat} {x : Conn} :
    x ∈ dropConn cs cid ↔ x ∈ cs ∧ x.cid ≠ cid := by
  induction cs with
  | nil => simp [dropConn]
  | cons c0 rest ih =>
      rw [dropConn]
      by_cases h0 : c0.cid = cid
      · rw [if_pos h0, ih]
        constructor
        · rintro ⟨hx, hne⟩
          exact ⟨List.mem_cons_of_mem _ hx, hne⟩
        · rintro ⟨hx, hne⟩
          rcases List.mem_cons.mp hx with rfl | hx
          · exact absurd h0 hne
          · exact ⟨hx, hne⟩
      · rw [if_neg h0]
        constructor
        · intro hx
          rcases List.mem_cons.mp hx with rfl | hx
          · exact ⟨List.mem_cons_self _ _, fun hc => h0 hc⟩
          · obtain ⟨hx', hne⟩ := ih.mp hx
            exact ⟨List.mem_cons_of_mem _ hx', hne⟩
        · rintro ⟨hx, hne⟩
          rcases List.mem_cons.mp hx with rfl | hx
          · exact List.mem_cons_self _ _
          · exact List.mem_cons_of_mem _ (ih.mpr ⟨hx, hne⟩)

end Rooms

namespace SrvFull

theorem change_fst (s : St) (cid : Nat) (d content : String) :
    (change s cid d content).1 = s := by
  unfold change
  rcases h : Rooms.findConn s.conns cid with _ | c
  · rfl
  · obtain ⟨c0, u0, n0, r0⟩ := c
    dsimp only
    cases u0 <;> rfl

theorem cursor_fst (s : St) (cid : Nat) (d : String) :
    (cursor s cid d).1 = s := by
  unfold cursor
  rcases h : Rooms.findConn s.conns cid with _ | c
  · rfl
  · obtain ⟨c0, u0, n0, r0⟩ := c
    dsimp only
    cases u0 <;> cases n0 <;> rfl

theorem chat_fst (s : St) (cid : Nat) (d msg : String)
    (p : Except Unit ChatRecord) : (chat s cid d msg p).1 = s := by
  unfold chat
  rcases h : Rooms.findConn s.conns cid with _ | c
  · rfl
  · obtain ⟨c0, u0, n0, r0⟩ := c
    dsimp only
    cases u0 <;> cases n0 <;> rfl

/-- Rooms-per-connection bound is preserved by every part_005 handler. -/
theorem step_le1 (s : St) (op : Op)
    (h : ∀ c ∈ s.conns, c.rooms.length ≤ 1) :
    ∀ c ∈ (step s op).conns, c.rooms.length ≤ 1 := by
  cases op with
  | connect cid =>
      intro c hc
      rw [step] at hc
      rcases List.mem_append.mp hc with hc | hc
      · exact h c hc
      · rcases List.mem_singleton.mp hc with rfl
        simp
  | userJoin cid u name =>
      intro c hc
      rw [step] at hc
      unfold userJoin at hc
      obtain ⟨c0, hc0, rfl⟩ := Rooms.mem_updConn.mp hc
      by_cases h0 : c0.cid = cid
      · rw [if_pos h0]
        exact h c0 hc0
      · rw [if_neg h0]
        exact h c0 hc0
  | docJoin cid d =>
      intro c hc
      rw [step] at hc
      unfold docJoin at hc
      rcases hf : Rooms.findConn s.conns cid with _ | c1
      · rw [hf] at hc
        exact h c hc
      · rw [hf] at hc
        obtain ⟨cc, u1, n1, r1⟩ := c1
        dsimp only at hc
        rcases u1 with _ | u <;> rcases n1 with _ | nm <;> dsimp only at hc
        · exact h c hc
        · exact h c hc
        · exact h c hc
        · obtain ⟨c0, hc0, rfl⟩ := Rooms.mem_updConn.mp hc
          by_cases h0 : c0.cid = cid
          · rw [if_pos h0]
            simp
          · rw [if_neg h0]
            exact h c0 hc0
  | change cid d content =>
      rw [step, change_fst]
      exact h
  | cursor cid d =>
      rw [step, cursor_fst]
      exact h
  | chat cid d msg p =>
      rw [step, chat_fst]
      exact h
  | disconnect cid =>
      intro c hc
      rw [step] at hc
      unfold disconnect at hc
      rcases hf : Rooms.findConn s.conns cid with _ | c1
      · rw [hf] at hc
        exact h c hc
      · rw [hf] at hc
        obtain ⟨cc, u1, n1, r1⟩ := c1
        dsimp only at hc
        rcases u1 with _ | u <;> dsimp only at hc <;>
          exact h c (Rooms.mem_dropConn.mp hc).1

/-- Rooms-per-connection bound over any run of the part_005 server. -/
theorem run_le1 (ops : List Op) :
    ∀ c ∈ (run ops).conns, c.rooms.length ≤ 1 := by
  suffices h : ∀ (l : List Op) (s : St),
      (∀ c ∈ s.conns, c.rooms.length ≤ 1) →
      ∀ c ∈ (l.foldl step s).conns, c.rooms.length ≤ 1 by
    exact h ops ⟨[]⟩ (by simp)
  intro l
  induction l with
  | nil => intro s hs; exact hs
  | cons op rest ih =>
      intro s hs
      exact ih (step s op) (step_le1 s op hs)

end SrvFull

/-! ### Claim C2 — one room per connection, leave before join -/

/-- Claim C2, counterexample to the claim as stated: in the part_007
variant, a connection that joins room `a` and then handles
`document:join` for room `b` stays in both rooms — no leave sequence
runs, so the connection is bound to two document rooms at once. -/
theorem C2_one_room_counterexample :
    Rooms.findConn
        (Rooms.SrvSimple.run
          [.connect 1, .userJoin 1 "u" "n", .docJoin 1 "a",
           .docJoin 1 "b"]).conns 1 =
      some ⟨1, some "u", some "n", ["a", "b"]⟩ ∧
    ¬ ((⟨1, some "u", some "n", ["a", "b"]⟩ : Rooms.Conn).rooms.length ≤ 1) := by
  constructor
  · rfl
  · decide

/-- Claim C2, amended (holds for the part_005 server, not for the
part_007 variant): every connection is in at most one document room
after any run, and when an identified connection in room `a` handles
`document:join` for room `b`, the handler's effect list is exactly the
full leave sequence for `a` (leave the socket room, remove presence,
remove the cursor, notify `a`'s remaining members) followed by the join
steps for `b`, and the connection ends up in room `b` only. -/
theorem C2_one_room_amended :
    (∀ ops : List SrvFull.Op,
      ∀ c ∈ (SrvFull.run ops).conns, c.rooms.length ≤ 1) ∧
    (∀ (s : SrvFull.St) (cid : Nat) (c : Rooms.Conn) (a b u nm : String),
      Rooms.findConn s.conns cid = some c → c.uid = some u →
      c.uname = some nm → c.rooms = [a] →
      (SrvFull.docJoin s cid b).2 =
        [SrvFull.Act.leaveSocketRoom a, SrvFull.Act.removePresence a u,
         SrvFull.Act.removeCursor a u, SrvFull.Act.emitUserLeft a u,
         SrvFull.Act.joinSocketRoom b, SrvFull.Act.addPresence b u,
         SrvFull.Act.emitUserJoined b u,
         SrvFull.Act.emitPresenceSnapshot cid] ∧
      (∀ c' ∈ (SrvFull.docJoin s cid b).1.conns,
        c'.cid = cid → c'.rooms = [b])) := by
  constructor
  · exact SrvFull.run_le1
  · intro s cid c a b u nm hf hu hn hr
    constructor
    · unfold SrvFull.docJoin
      rw [hf]
      dsimp only
      rw [hu, hn]
      dsimp only
      rw [hr]
      rfl
    · intro c' hc' hcid
      unfold SrvFull.docJoin at hc'
      rw [hf] at hc'
      dsimp only at hc'
      rw [hu, hn] at hc'
      dsimp only at hc'
      obtain ⟨c0, hc0, rfl⟩ := Rooms.mem_updConn.mp hc'
      by_cases h0 : c0.cid = cid
      · rw [if_pos h0]
      · rw [if_neg h0] at hcid ⊢
        exact absurd hcid h0

/-- Claim C2, witness for the amended theorem at a concrete input: a
connection identified as `u` and sitting in room `a` handles
`document:join` for `b`; the emitted effect list is the leave sequence
for `a` followed by the join steps for `b`. -/
theorem C2_one_room_witness :
    Rooms.findConn
        (SrvFull.run [.connect 1, .userJoin 1 "u" "n", .docJoin 1 "a"]).conns
        1 = some ⟨1, some "u", some "n", ["a"]⟩ ∧
    (SrvFull.docJoin
        (SrvFull.run [.connect 1, .userJoin 1 "u" "n", .docJoin 1 "a"]) 1
        "b").2 =
      [SrvFull.Act.leaveSocketRoom "a", SrvFull.Act.removePresence "a" "u",
       SrvFull.Act.removeCursor "a" "u", SrvFull.Act.emitUserLeft "a" "u",
       SrvFull.Act.joinSocketRoom "b", SrvFull.Act.addPresence "b" "u",
       SrvFull.Act.emitUserJoined "b" "u",
       SrvFull.Act.emitPresenceSnapshot 1] := by
  refine ⟨by decide, ?_⟩
  exact (C2_one_room_amended.2
    (SrvFull.run [.connect 1, .userJoin 1 "u" "n", .docJoin 1 "a"]) 1
    ⟨1, some "u", some "n", ["a"]⟩ "a" "b" "u" "n" (by decide) rfl rfl rfl).1

/-! ### Claim C3 — chat persists first, then broadcasts to the room -/

/-- Claim C3: for a `chat:message` from an identified connection in the
target room, the persistence call comes first in the handler's effect
list; exactly when it succeeds, the persisted record is broadcast to
every socket in the room (the sender included); when it fails, the only
further effect is an error event to the sender, and no
`chat:new_message` is emitted to anyone; the server state is unchanged
either way. -/
theorem C3_chat_persist_then_broadcast :
    ∀ (s : SrvFull.St) (cid : Nat) (c : Rooms.Conn) (d msg u nm : String)
      (p : Except Unit SrvFull.ChatRecord),
      Rooms.findConn s.conns cid = some c → c.uid = some u →
      c.uname = some nm → cid ∈ SrvFull.roomMembers s d →
      ((∀ rec, p = .ok rec →
        (SrvFull.chat s cid d msg p).2 =
          [SrvFull.Act.persistChat d u msg,
           SrvFull.Act.emitNewMessage (SrvFull.roomMembers s d) rec] ∧
        cid ∈ SrvFull.roomMembers s d) ∧
      (p = .error () →
        (SrvFull.chat s cid d msg p).2 =
          [SrvFull.Act.persistChat d u msg,
           SrvFull.Act.emitError cid "Failed to send message"] ∧
        (∀ (recips : List Nat) (rec : SrvFull.ChatRecord),
          SrvFull.Act.emitNewMessage recips rec ∉
            (SrvFull.chat s cid d msg p).2)) ∧
      (SrvFull.chat s cid d msg p).1 = s) := by
  intro s cid c d msg u nm p hf hu hn hmem
  refine ⟨?_, ?_, SrvFull.chat_fst s cid d msg p⟩
  · rintro rec rfl
    refine ⟨?_, hmem⟩
    unfold SrvFull.chat
    rw [hf]
    dsimp only
    rw [hu, hn]
  · rintro rfl
    have htr : (SrvFull.chat s cid d msg (.error ())).2 =
        [SrvFull.Act.persistChat d u msg,
         SrvFull.Act.emitError cid "Failed to send message"] := by
      unfold SrvFull.chat
      rw [hf]
      dsimp only
      rw [hu, hn]
    refine ⟨htr, ?_⟩
    intro recips rec hin
    rw [htr] at hin
    simp at hin

/-- Claim C3, witness at a concrete input: two identified connections in
room `d`; a successful chat from socket 1 broadcasts the persisted
record to sockets 1 and 2 (sender included), and a failed chat emits the
error to socket 1 only with no broadcast. -/
theorem C3_chat_witness :
    (1 ∈ SrvFull.roomMembers
      (SrvFull.run
        [.connect 1, .userJoin 1 "u" "n", .docJoin 1 "d",
         .connect 2, .userJoin 2 "v" "m", .docJoin 2 "d"]) "d") ∧
    (SrvFull.chat
        (SrvFull.run
          [.connect 1, .userJoin 1 "u" "n", .docJoin 1 "d",
           .connect 2, .userJoin 2 "v" "m", .docJoin 2 "d"]) 1 "d" "hi"
        (.ok ⟨7, "d", "u", "hi", 1000, "n"⟩)).2 =
      [SrvFull.Act.persistChat "d" "u" "hi",
       SrvFull.Act.emitNewMessage [1, 2] ⟨7, "d", "u", "hi", 1000, "n"⟩] ∧
    (SrvFull.chat
        (SrvFull.run
          [.connect 1, .userJoin 1 "u" "n", .docJoin 1 "d",
           .connect 2, .userJoin 2 "v" "m", .docJoin 2 "d"]) 1 "d" "hi"
        (.error ())).2 =
      [SrvFull.Act.persistChat "d" "u" "hi",
       SrvFull.Act.emitError 1 "Failed to send message"] := by
  refine ⟨by decide, ?_, ?_⟩
  · have h := ((C3_chat_persist_then_broadcast
      (SrvFull.run
        [.connect 1, .userJoin 1 "u" "n", .docJoin 1 "d",
         .connect 2, .userJoin 2 "v" "m", .docJoin 2 "d"]) 1
      ⟨1, some "u", some "n", ["d"]⟩ "d" "hi" "u" "n"
      (.ok ⟨7, "d", "u", "hi", 1000, "n"⟩) (by decide) rfl rfl
      (by decide)).1 ⟨7, "d", "u", "hi", 1000, "n"⟩ rfl).1
    rw [h]
    rfl
  · exact ((C3_chat_persist_then_broadcast
      (SrvFull.run
        [.connect 1, .userJoin 1 "u" "n", .docJoin 1 "d",
         .connect 2, .userJoin 2 "v" "m", .docJoin 2 "d"]) 1
      ⟨1, some "u", some "n", ["d"]⟩ "d" "hi" "u" "n" (.error ())
      (by decide) rfl rfl (by decide)).2.1 rfl).1

/-! ### Claim C4 — writes invalidate the document cache before success -/

/-- Claim C4, counterexample to the claim as stated: the
`router.put('/:id')` route of server/routes/documents.ts commits a
content write and responds success without any call to
`invalidateDocumentCache`. -/
theorem C4_invalidate_counterexample :
    Routes.putRouter "doc1" (some "x") (some "u1") (.ok ()) =
      [Routes.RAct.dbUpdateContent "doc1" "x", Routes.RAct.respondOk] ∧
    Routes.RAct.invalidateCache "doc1" ∉
      Routes.putRouter "doc1" (some "x") (some "u1") (.ok ()) := by
  constructor
  · rfl
  · decide

/-- Claim C4, amended: the part_005 PUT /api/documents/:id route calls
`invalidateDocumentCache` after a committed write and before responding
success, the part_005 `document:change` handler ends with the
invalidation, and a cache get after an invalidate (with no intervening
put) is a miss; the documents.ts router commits content writes without
invalidating. -/
theorem C4_invalidate_amended :
    ∀ (id content userId d chg : String) (s : SrvFull.St) (cid : Nat)
      (c : Rooms.Conn) (u : String) (st : Cache.CacheState) (t : Int),
      content ≠ "" → userId ≠ "" →
      Rooms.findConn s.conns cid = some c → c.uid = some u →
      Routes.putIndex id (some content) (some userId) (.ok ()) =
        [Routes.RAct.dbUpdateContent id content,
         Routes.RAct.invalidateCache id, Routes.RAct.respondOk] ∧
      (SrvFull.change s cid d chg).2 =
        [SrvFull.Act.emitChanged d chg, SrvFull.Act.publishChange d,
         SrvFull.Act.invalidateCache d] ∧
      Cache.getCachedDocument (Cache.invalidateDocumentCache st id) id t =
        none := by
  intro id content userId d chg s cid c u st t hc hu hf hcu
  refine ⟨?_, ?_, ?_⟩
  · unfold Routes.putIndex Routes.truthy
    simp [hc, hu]
  · unfold SrvFull.change
    rw [hf]
    dsimp only
    rw [hcu]
  · unfold Cache.getCachedDocument Cache.invalidateDocumentCache
    rw [mapGet_mapDel_self]

/-- Claim C4, witness for the amended theorem at a concrete input. -/
theorem C4_invalidate_witness :
    Routes.putIndex "doc1" (some "x") (some "u1") (.ok ()) =
      [Routes.RAct.dbUpdateContent "doc1" "x",
       Routes.RAct.invalidateCache "doc1", Routes.RAct.respondOk] ∧
    (SrvFull.change (SrvFull.run [.connect 1, .userJoin 1 "u" "n"]) 1
        "doc1" "x").2 =
      [SrvFull.Act.emitChanged "doc1" "x", SrvFull.Act.publishChange "doc1",
       SrvFull.Act.invalidateCache "doc1"] ∧
    Cache.getCachedDocument
        (Cache.invalidateDocumentCache
          (Cache.cacheDocument [] "doc1" [("content", JVal.str "old")] 0)
          "doc1") "doc1" 1 = none := by
  have h := C4_invalidate_amended "doc1" "x" "u1" "doc1" "x"
    (SrvFull.run [.connect 1, .userJoin 1 "u" "n"]) 1
    ⟨1, some "u", some "n", []⟩ "u"
    (Cache.cacheDocument [] "doc1" [("content", JVal.str "old")] 0) 1
    (by decide) (by decide) (by decide) rfl
  exact ⟨h.1, h.2.1, h.2.2⟩

/-! ### Claim C5 — out-of-order actions -/

/-- Claim C5, counterexample to the claim as stated: a `document:change`
received before identification performs no state change but also emits
nothing at all — the claimed error event to the submitting connection is
never sent (the same holds for `cursor:update` and `chat:message`). -/
theorem C5_guard_counterexample :
    SrvFull.change (SrvFull.run [.connect 1]) 1 "d" "x" =
      (SrvFull.run [.connect 1], []) := by
  rfl

/-- Claim C5, amended: an action that requires identity received before
identification performs no state change and never crashes or closes the
connection; `document:join` answers with an error event to the
submitting connection, while `document:change`, `cursor:update` and
`chat:message` are dropped silently with no error event. -/
theorem C5_guard_amended :
    ∀ (s : SrvFull.St) (cid : Nat) (c : Rooms.Conn) (d content msg : String)
      (p : Except Unit SrvFull.ChatRecord),
      Rooms.findConn s.conns cid = some c → c.uid = none →
      SrvFull.change s cid d content = (s, []) ∧
      SrvFull.cursor s cid d = (s, []) ∧
      SrvFull.chat s cid d msg p = (s, []) ∧
      SrvFull.docJoin s cid d =
        (s, [SrvFull.Act.emitError cid "User not authenticated"]) ∧
      Rooms.findConn (SrvFull.docJoin s cid d).1.conns cid = some c := by
  intro s cid c d content msg p hf hu
  have hch : SrvFull.change s cid d content = (s, []) := by
    unfold SrvFull.change
    rw [hf]
    dsimp only
    rw [hu]
  have hcu : SrvFull.cursor s cid d = (s, []) := by
    unfold SrvFull.cursor
    rw [hf]
    dsimp only
    rw [hu]
  have hcm : SrvFull.chat s cid d msg p = (s, []) := by
    unfold SrvFull.chat
    rw [hf]
    dsimp only
    rw [hu]
  have hdj : SrvFull.docJoin s cid d =
      (s, [SrvFull.Act.emitError cid "User not authenticated"]) := by
    unfold SrvFull.docJoin
    rw [hf]
    dsimp only
    rw [hu]
  refine ⟨hch, hcu, hcm, hdj, ?_⟩
  rw [hdj]
  exact hf

/-- Claim C5, witness for the amended theorem at a concrete input: a
fresh unidentified connection submits each out-of-order action; the
state never changes, `document:join` gets the error event and the
connection survives. -/
theorem C5_guard_witness :
    SrvFull.cursor (SrvFull.run [.connect 1]) 1 "d" =
      (SrvFull.run [.connect 1], []) ∧
    SrvFull.chat (SrvFull.run [.connect 1]) 1 "d" "hi" (.error ()) =
      (SrvFull.run [.connect 1], []) ∧
    SrvFull.docJoin (SrvFull.run [.connect 1]) 1 "d" =
      (SrvFull.run [.connect 1],
       [SrvFull.Act.emitError 1 "User not authenticated"]) ∧
    Rooms.findConn (SrvFull.docJoin (SrvFull.run [.connect 1]) 1 "d").1.conns
        1 = some ⟨1, none, none, []⟩ := by
  have h := C5_guard_amended (SrvFull.run [.connect 1]) 1
    ⟨1, none, none, []⟩ "d" "x" "hi" (.error ()) (by decide) rfl
  exact ⟨h.2.1, h.2.2.1, h.2.2.2.1, h.2.2.2.2⟩

/-! ### Lemmas about the presence store -/

namespace Presence

theorem add_infos (st : St) (d u name : String) (t : Int) :
    (step st (.add d u name t)).infos =
      mapSet st.infos u
        ({ id := u, username := name, lastSeen := t }, t + 300000) := rfl

theorem add_presence (st : St) (d u name : String) (t : Int) :
    (step st (.add d u name t)).presence =
      mapSet st.presence d (setAddStr (aliveMembers st d t) u, t + 300000) :=
  rfl

theorem remove_infos (st : St) (d u : String) (t : Int) :
    (step st (.remove d u t)).infos = st.infos := by
  rw [step]
  rcases hp : mapGet st.presence d with _ | p
  · rfl
  · obtain ⟨m, exp⟩ := p
    dsimp only
    by_cases ht : t < exp
    · rw [if_pos ht]
    · rw [if_neg ht]

theorem infoWF_step (st : St) (op : POp) (h : infoWF st) :
    infoWF (step st op) := by
  cases op with
  | add d u name t =>
      intro u' info iexp hget
      rw [add_infos] at hget
      by_cases hu : u' = u
      · subst hu
        rw [mapGet_mapSet_self] at hget
        obtain ⟨h1, h2⟩ := Prod.mk.injEq .. ▸ Option.some_injective _ hget
        rw [← h1]
      · rw [mapGet_mapSet_ne _ _ _ _ hu] at hget
        exact h u' info iexp hget
  | remove d u t =>
      intro u' info iexp hget
      rw [remove_infos] at hget
      exact h u' info iexp hget

theorem infoWF_run (ops : List POp) : infoWF (runP ops) := by
  suffices h : ∀ (l : List POp) (s : St), infoWF s → infoWF (l.foldl step s) by
    refine h ops ⟨[], []⟩ ?_
    intro u info iexp hget
    simp [mapGet] at hget
  intro l
  induction l with
  | nil => intro s hs; exact hs
  | cons op rest ih => intro s hs; exact ih (step s op) (infoWF_step s op hs)

theorem infoExpLe_step (st : St) (op : POp) (u : String) (t0 : Int)
    (hop : ∀ d name t, op = .add d u name t → t ≤ t0)
    (h : infoExpLe st u (t0 + 300000)) :
    infoExpLe (step st op) u (t0 + 300000) := by
  cases op with
  | add d u' name t =>
      intro info iexp hget
      rw [add_infos] at hget
      by_cases hu : u = u'
      · subst hu
        rw [mapGet_mapSet_self] at hget
        obtain ⟨h1, h2⟩ := Prod.mk.injEq .. ▸ Option.some_injective _ hget
        have ht : t ≤ t0 := hop d name t rfl
        omega
      · rw [mapGet_mapSet_ne _ _ _ _ hu] at hget
        exact h info iexp hget
  | remove d u' t =>
      intro info iexp hget
      rw [remove_infos] at hget
      exact h info iexp hget

theorem infoExpLe_run (ops : List POp) (u : String) (t0 : Int)
    (hops : ∀ op ∈ ops, ∀ d name t, op = POp.add d u name t → t ≤ t0) :
    infoExpLe (runP ops) u (t0 + 300000) := by
  suffices h : ∀ (l : List POp) (s : St),
      (∀ op ∈ l, ∀ d name t, op = POp.add d u name t → t ≤ t0) →
      infoExpLe s u (t0 + 300000) → infoExpLe (l.foldl step s) u (t0 + 300000) by
    refine h ops ⟨[], []⟩ hops ?_
    intro info iexp hget
    simp [mapGet] at hget
  intro l
  induction l with
  | nil => intro s _ hs; exact hs
  | cons op rest ih =>
      intro s hl hs
      exact ih (step s op) (fun o ho => hl o (List.mem_cons_of_mem _ ho))
        (infoExpLe_step s op u t0 (hl op (List.mem_cons_self _ _)) hs)

/-- Decomposition of a hit in `getDocumentActiveUsers`: the presence key
is alive, the member is in the stored set, and its info hash is alive
with a truthy id. -/
theorem active_users_spec (st : St) (d : String) (t : Int) (x : UserInfo)
    (hx : x ∈ getDocumentActiveUsers st d t) :
    ∃ mem exp, mapGet st.presence d = some (mem, exp) ∧ t < exp ∧
      ∃ u iexp, u ∈ mem ∧ mapGet st.infos u = some (x, iexp) ∧
        t < iexp ∧ x.id ≠ "" := by
  unfold getDocumentActiveUsers at hx
  rcases hp : mapGet st.presence d with _ | p
  · rw [hp] at hx
    simp at hx
  · obtain ⟨mem, exp⟩ := p
    rw [hp] at hx
    dsimp only at hx
    by_cases ht : t < exp
    · rw [if_pos ht] at hx
      rw [List.mem_filterMap] at hx
      obtain ⟨u, hu, hf⟩ := hx
      rcases hi : mapGet st.infos u with _ | q
      · rw [hi] at hf
        simp at hf
      · obtain ⟨info, iexp⟩ := q
        rw [hi] at hf
        dsimp only at hf
        by_cases hc : t < iexp ∧ info.id ≠ ""
        · rw [if_pos hc] at hf
          obtain rfl := Option.some_injective _ hf
          exact ⟨mem, exp, rfl, ht, u, iexp, hu, hi, hc.1, hc.2⟩
        · rw [if_neg hc] at hf
          simp at hf
    · rw [if_neg ht] at hx
      simp at hx

end Presence

/-! ### Claim C8 — presence expiry window -/

/-- Claim C8, counterexample to the claim as stated: `addUserToDocument`
for `("D","A")` is last called at t = 0 and never again; user B joins D
and user A joins a different document E at t = 250 s; at t = 400 s (more
than 300 s after A's last join of D) the presence listing for D still
contains A, because the 300 s TTL sits on the whole presence set (which
B's join refreshed) and on A's info hash (which A's join of E
refreshed), not on the (documentId, userId) membership. -/
theorem C8_presence_ttl_counterexample :
    (⟨"A", "alice", 250000⟩ : Presence.UserInfo) ∈
      Presence.getDocumentActiveUsers
        (Presence.runP
          [.add "D" "A" "alice" 0, .add "E" "A" "alice" 250000,
           .add "D" "B" "bob" 250000]) "D" 400000 := by
  decide

/-- Claim C8, amended: if no `addUserToDocument` call involving a userId
(for any document) happens after time `t0`, then from `t0 + 300` s on
that user is absent from every document's presence listing, regardless
of other users' joins; and each `addUserToDocument` call resets both the
info-hash and presence-set expiry to exactly 300 s from the call time
(not additively). -/
theorem C8_presence_ttl_amended :
    (∀ (ops : List Presence.POp) (d u : String) (t0 t : Int),
      (∀ op ∈ ops, ∀ d' name t', op = Presence.POp.add d' u name t' →
        t' ≤ t0) →
      t0 + 300000 ≤ t →
      ∀ x ∈ Presence.getDocumentActiveUsers (Presence.runP ops) d t,
        x.id ≠ u) ∧
    (∀ (st : Presence.St) (d u name : String) (t : Int),
      mapGet (Presence.step st (.add d u name t)).infos u =
        some (⟨u, name, t⟩, t + 300000) ∧
      mapGet (Presence.step st (.add d u name t)).presence d =
        some (Presence.setAddStr (Presence.aliveMembers st d t) u,
          t + 300000)) := by
  constructor
  · intro ops d u t0 t hops ht x hx hxid
    obtain ⟨mem, exp, hp, htexp, u', iexp, hu', hi, hti, hid⟩ :=
      Presence.active_users_spec (Presence.runP ops) d t x hx
    have hwf : x.id = u' := Presence.infoWF_run ops u' x iexp hi
    rw [hxid] at hwf
    rw [← hwf] at hi
    have hle : iexp ≤ t0 + 300000 :=
      Presence.infoExpLe_run ops u t0 hops x iexp hi
    omega
  · intro st d u name t
    constructor
    · rw [Presence.add_infos, mapGet_mapSet_self]
    · rw [Presence.add_presence, mapGet_mapSet_self]

/-- Claim C8, witness for the amended theorem at a concrete input: after
a single join of D by A at t = 0, the listing at t = 300 s no longer
contains A, and a re-join at t = 250 s sets the expiry to exactly
550 s. -/
theorem C8_presence_ttl_witness :
    ((∀ op ∈ ([.add "D" "A" "alice" 0] : List Presence.POp),
        ∀ d' name t', op = Presence.POp.add d' "A" name t' → t' ≤ 0) ∧
      (0 : Int) + 300000 ≤ 300000 ∧
      (∀ x ∈ Presence.getDocumentActiveUsers
          (Presence.runP [.add "D" "A" "alice" 0]) "D" 300000,
        x.id ≠ "A")) ∧
    mapGet (Presence.step (Presence.runP [.add "D" "A" "alice" 0])
        (.add "D" "A" "alice" 250000)).infos "A" =
      some (⟨"A", "alice", 250000⟩, 550000) := by
  refine ⟨⟨?_, by decide, ?_⟩, ?_⟩
  · intro op hop d' name t' heq
    rcases List.mem_singleton.mp hop with rfl
    obtain ⟨h1, h2, h3, h4⟩ := Presence.POp.add.injEq .. ▸ heq
    omega
  · exact C8_presence_ttl_amended.1 [.add "D" "A" "alice" 0] "D" "A" 0
      300000
      (by
        intro op hop d' name t' heq
        rcases List.mem_singleton.mp hop with rfl
        obtain ⟨h1, h2, h3, h4⟩ := Presence.POp.add.injEq .. ▸ heq
        omega)
      (by decide)
  · exact (C8_presence_ttl_amended.2 (Presence.runP [.add "D" "A" "alice" 0])
      "D" "A" "alice" 250000).1

/-! ### Claim C9 — active users are presence members with live info -/

/-- Claim C9: every user returned by `getDocumentActiveUsers` is a member
of the document's live presence set and has a live info hash with a
non-empty id, so the returned ids are a subset of the presence set;
members whose info hash is missing or expired are silently omitted. -/
theorem C9_active_users_subset :
    ∀ (ops : List Presence.POp) (d : String) (t : Int)
      (x : Presence.UserInfo),
      x ∈ Presence.getDocumentActiveUsers (Presence.runP ops) d t →
      ∃ mem exp,
        mapGet (Presence.runP ops).presence d = some (mem, exp) ∧ t < exp ∧
        x.id ∈ mem ∧
        ∃ iexp,
          mapGet (Presence.runP ops).infos x.id = some (x, iexp) ∧
          t < iexp ∧ x.id ≠ "" := by
  intro ops d t x hx
  obtain ⟨mem, exp, hp, ht, u, iexp, hu, hi, hti, hid⟩ :=
    Presence.active_users_spec (Presence.runP ops) d t x hx
  have hwf : x.id = u := Presence.infoWF_run ops u x iexp hi
  rw [← hwf] at hu hi
  exact ⟨mem, exp, hp, ht, hu, iexp, hi, hti, hid⟩

/-- Claim C9, witness at a concrete input: with A joined to D at t = 0
and B present in the set with an expired info hash (B's info was last
refreshed by an old join), the listing at t = 10 s contains A, and A is
in the presence set with a live info hash. -/
theorem C9_active_users_subset_witness :
    ((⟨"A", "alice", 0⟩ : Presence.UserInfo) ∈
      Presence.getDocumentActiveUsers
        (Presence.runP [.add "D" "A" "alice" 0]) "D" 10000) ∧
    ∃ mem exp,
      mapGet (Presence.runP [.add "D" "A" "alice" 0]).presence "D" =
        some (mem, exp) ∧ (10000 : Int) < exp ∧
      (⟨"A", "alice", 0⟩ : Presence.UserInfo).id ∈ mem ∧
      ∃ iexp,
        mapGet (Presence.runP [.add "D" "A" "alice" 0]).infos
            (⟨"A", "alice", 0⟩ : Presence.UserInfo).id =
          some (⟨"A", "alice", 0⟩, iexp) ∧
        (10000 : Int) < iexp ∧
        (⟨"A", "alice", 0⟩ : Presence.UserInfo).id ≠ "" := by
  refine ⟨by decide, ?_⟩
  exact C9_active_users_subset [.add "D" "A" "alice" 0] "D" 10000
    ⟨"A", "alice", 0⟩ (by decide)

/-! ### Claim C1 — the in-process room registry -/

/-- Claim C1 evaluated at the failing input, on the part_001
`setupSocketHandlers` variant that the spec's invariant describes: user
`u` joins document `d` on socket 1 and the socket then disconnects.
Because Socket.IO empties `socket.rooms` before the `disconnect` event,
the handler's cleanup loop never runs: `documentRooms` still lists `u`
as a member of `d` although no connection is bound to `d`, and the
now-empty room is never removed — the registry the handler plainly tries
to clean (its dead per-room loop removes the member and deletes emptied
rooms) leaks, against the claim and the spec's own disconnect scenario. -/
theorem C1_registry_code_bug :
    Rooms.memQ
      (Rooms.SrvTs.run
        [.connect 1, .userJoin 1 "u" "n", .docJoin 1 "d", .disconnect 1])
      "d" "u" ∧
    ¬ Rooms.bound
      (Rooms.SrvTs.run
        [.connect 1, .userJoin 1 "u" "n", .docJoin 1 "d", .disconnect 1])
      "d" "u" := by
  constructor
  · decide
  · decide
